import Mathlib

/-!
Verification of the synthetic price-series generator and chart projector of
the Instaitex exchange dashboard (src/components/PriceChart.tsx).

The simulator state is the rolling window of samples, modelled as a
`List ℚ` (oldest sample first).  JavaScript numbers are modelled as exact
rationals; `Math.random()` draws are explicit rational parameters in
`[0, 1)`.  String formatting (`Number.prototype.toFixed`) is modelled by
`toFixedQ`, following the ECMAScript rounding rule (nearest, ties to the
larger candidate, sign peeled off first).
-/

namespace InstaitexChart

/-- Window capacity: `maxPoints = 80` in `CryptoChart`. -/
def maxPoints : Nat := 80

/-- One seeded sample of the normal-class `initialize`:
`base + (Math.random() - 0.5) * variance` with `variance = base * 0.02`. -/
def seedSample (base r : ℚ) : ℚ := base + (r - 1/2) * (base * (2/100))

/-- Normal-class `initialize`: `Array.from` of `maxPoints` independent draws
(the draws are passed as the list `rs`). -/
def initializeNormal (base : ℚ) (rs : List ℚ) : List ℚ := rs.map (seedSample base)

/-- GAFR (flatline) `initialize`: `Array(maxPoints).fill(0)`. -/
def initializeGafr : List ℚ := List.replicate maxPoints 0

/-- Per-tick volatility: `coin.basePrice * 0.005`. -/
def volatility (base : ℚ) : ℚ := base * (5/1000)

/-- The random-walk step: `change = (Math.random() - 0.5) * volatility`. -/
def change (base r : ℚ) : ℚ := (r - 1/2) * volatility base

/-- `prev[prev.length - 1] || coin.basePrice`: the last window sample, with
JavaScript falsy semantics — `undefined` (empty window) and `0` both fall
back to the base price. -/
def lastOr (base : ℚ) (w : List ℚ) : ℚ :=
  match w.getLast? with
  | none => base
  | some x => if x = 0 then base else x

/-- The soft clamp applied to the stepped price: below `0.8 * base` resets to
`0.8 * base + volatility`, above `1.2 * base` resets to `1.2 * base - volatility`. -/
def clampVal (base np : ℚ) : ℚ :=
  let minBound := base * (8/10)
  let maxBound := base * (12/10)
  let np1 := if np < minBound then minBound + volatility base else np
  if np1 > maxBound then maxBound - volatility base else np1

/-- The value appended by a normal-class `advance` for draw `r`. -/
def advanceNormalVal (base : ℚ) (w : List ℚ) (r : ℚ) : ℚ :=
  clampVal base (lastOr base w + change base r)

/-- Normal-class `advance`: `[...prev.slice(1), newPrice]` and `setPrice(newPrice)`.
Returns (new window, displayed price). -/
def advanceNormal (base : ℚ) (w : List ℚ) (r : ℚ) : List ℚ × ℚ :=
  let v := advanceNormalVal base w r
  (w.drop 1 ++ [v], v)

/-- GAFR tick value: flicker iff the first draw exceeds `0.95`; the flicker
sign is `+0.01` iff the second draw exceeds `0.5`. -/
def gafrVal (r1 r2 : ℚ) : ℚ :=
  if r1 > 19/20 then (if r2 > 1/2 then 1/100 else -(1/100)) else 0

/-- GAFR `advance`: `[...prev.slice(1), val]` and `setPrice(0)`. -/
def advanceGafr (w : List ℚ) (r1 r2 : ℚ) : List ℚ × ℚ :=
  (w.drop 1 ++ [gafrVal r1 r2], 0)

/-- `Math.min(...data)` over a non-empty window (0 for the empty window,
which the component never normalizes). -/
def mathMin : List ℚ → ℚ
  | [] => 0
  | x :: xs => xs.foldl min x

/-- `Math.max(...data)` over a non-empty window. -/
def mathMax : List ℚ → ℚ
  | [] => 0
  | x :: xs => xs.foldl max x

/-- `range = (max - min) || (base > 0 ? base * 0.0001 : 1)` — JavaScript `||`
replaces a zero spread by the fallback. -/
def rangeOf (base : ℚ) (w : List ℚ) : ℚ :=
  let d := mathMax w - mathMin w
  if d = 0 then (if base > 0 then base * (1/10000) else 1) else d

/-- The normalized vertical coordinate of a datum `d`:
`(d - min) / range`, overridden to `0.5` whenever `max == min`. -/
def effectiveY (base : ℚ) (w : List ℚ) (d : ℚ) : ℚ :=
  if mathMax w = mathMin w then 1/2 else (d - mathMin w) / rangeOf base w

/-- Left-pads a digit string with zeros to length `f`. -/
def padZeros (s : String) (f : Nat) : String :=
  String.mk (List.replicate (f - s.length) '0') ++ s

/-- `toFixed f` for a non-negative rational: the integer `n` nearest to
`x * 10 ^ f` (ties to the larger `n`, per ECMAScript), rendered with `f`
fractional digits. -/
def toFixedPos (f : Nat) (x : ℚ) : String :=
  let n : Nat := (Int.floor (x * (10 : ℚ) ^ f + 1/2)).toNat
  let d : Nat := 10 ^ f
  if f = 0 then toString n
  else toString (n / d) ++ "." ++ padZeros (toString (n % d)) f

/-- `Number.prototype.toFixed(f)`: the sign is peeled off first. -/
def toFixedQ (f : Nat) (x : ℚ) : String :=
  if x < 0 then "-" ++ toFixedPos f (-x) else toFixedPos f x

/-- `percentChange`: `data.length > 0 && data[0] !== 0 ?
((price - data[0]) / data[0] * 100).toFixed(2) : "0.00"`. -/
def percentChange (w : List ℚ) (price : ℚ) : String :=
  match w with
  | [] => "0.00"
  | f :: _ => if f = 0 then "0.00" else toFixedQ 2 ((price - f) / f * 100)

/-- `priceDisplay`: GAFR always shows `"0.00"`; otherwise 8 decimals below 1,
else 2 decimals. -/
def priceDisplay (isGafr : Bool) (price : ℚ) : String :=
  if isGafr then "0.00"
  else if price < 1 then toFixedQ 8 price else toFixedQ 2 price

/-- The sparkline chart's vertical-axis bounds:
`min * (detailed ? 0.999 : 0.99)` and `max * (detailed ? 1.001 : 1.01)`. -/
def sparkBounds (detailed : Bool) (prices : List ℚ) : ℚ × ℚ :=
  (mathMin prices * (if detailed then 999/1000 else 99/100),
   mathMax prices * (if detailed then 1001/1000 else 101/100))

/-! ### Fold lemmas for `Math.min` / `Math.max` -/

lemma foldl_min_le_init (xs : List ℚ) (a : ℚ) : xs.foldl min a ≤ a := by
  induction xs generalizing a with
  | nil => simp
  | cons x xs ih =>
      calc (x :: xs).foldl min a = xs.foldl min (min a x) := rfl
        _ ≤ min a x := ih _
        _ ≤ a := min_le_left _ _

lemma foldl_min_le_mem (xs : List ℚ) (a y : ℚ) (hy : y ∈ xs) :
    xs.foldl min a ≤ y := by
  induction xs generalizing a with
  | nil => cases hy
  | cons x xs ih =>
      rcases List.mem_cons.mp hy with h | h
      · subst h
        calc (y :: xs).foldl min a = xs.foldl min (min a y) := rfl
          _ ≤ min a y := foldl_min_le_init _ _
          _ ≤ y := min_le_right _ _
      · exact ih (min a x) h

lemma foldl_min_eq_or_mem (xs : List ℚ) (a : ℚ) :
    xs.foldl min a = a ∨ xs.foldl min a ∈ xs := by
  induction xs generalizing a with
  | nil => exact Or.inl rfl
  | cons x xs ih =>
      rcases ih (min a x) with h | h
      · rcases min_choice a x with hm | hm
        · exact Or.inl (by rw [List.foldl_cons, h, hm])
        · exact Or.inr (by rw [List.foldl_cons, h, hm]; exact List.mem_cons_self _ _)
      · exact Or.inr (List.mem_cons_of_mem _ h)

lemma init_le_foldl_max (xs : List ℚ) (a : ℚ) : a ≤ xs.foldl max a := by
  induction xs generalizing a with
  | nil => simp
  | cons x xs ih =>
      calc a ≤ max a x := le_max_left _ _
        _ ≤ xs.foldl max (max a x) := ih _
        _ = (x :: xs).foldl max a := rfl

lemma mem_le_foldl_max (xs : List ℚ) (a y : ℚ) (hy : y ∈ xs) :
    y ≤ xs.foldl max a := by
  induction xs generalizing a with
  | nil => cases hy
  | cons x xs ih =>
      rcases List.mem_cons.mp hy with h | h
      · subst h
        calc y ≤ max a y := le_max_right _ _
          _ ≤ xs.foldl max (max a y) := init_le_foldl_max _ _
          _ = (y :: xs).foldl max a := rfl
      · exact ih (max a x) h

lemma foldl_max_eq_or_mem (xs : List ℚ) (a : ℚ) :
    xs.foldl max a = a ∨ xs.foldl max a ∈ xs := by
  induction xs generalizing a with
  | nil => exact Or.inl rfl
  | cons x xs ih =>
      rcases ih (max a x) with h | h
      · rcases max_choice a x with hm | hm
        · exact Or.inl (by rw [List.foldl_cons, h, hm])
        · exact Or.inr (by rw [List.foldl_cons, h, hm]; exact List.mem_cons_self _ _)
      · exact Or.inr (List.mem_cons_of_mem _ h)

lemma mathMin_le_mem (w : List ℚ) (y : ℚ) (hy : y ∈ w) : mathMin w ≤ y := by
  cases w with
  | nil => cases hy
  | cons x xs =>
      rcases List.mem_cons.mp hy with h | h
      · subst h; exact foldl_min_le_init _ _
      · exact foldl_min_le_mem _ _ _ h

lemma mathMin_mem (w : List ℚ) (hw : w ≠ []) : mathMin w ∈ w := by
  cases w with
  | nil => exact absurd rfl hw
  | cons x xs =>
      rcases foldl_min_eq_or_mem xs x with h | h
      · rw [mathMin, h]; exact List.mem_cons_self _ _
      · exact List.mem_cons_of_mem _ (by rw [mathMin]; exact h)

lemma mem_le_mathMax (w : List ℚ) (y : ℚ) (hy : y ∈ w) : y ≤ mathMax w := by
  cases w with
  | nil => cases hy
  | cons x xs =>
      rcases List.mem_cons.mp hy with h | h
      · subst h; exact init_le_foldl_max _ _
      · exact mem_le_foldl_max _ _ _ h

lemma mathMax_mem (w : List ℚ) (hw : w ≠ []) : mathMax w ∈ w := by
  cases w with
  | nil => exact absurd rfl hw
  | cons x xs =>
      rcases foldl_max_eq_or_mem xs x with h | h
      · rw [mathMax, h]; exact List.mem_cons_self _ _
      · exact List.mem_cons_of_mem _ (by rw [mathMax]; exact h)

/-! ### Helper lemmas -/

/-- The soft clamp keeps any stepped price inside the band when the base is
non-negative. -/
lemma clampVal_mem_band (base np : ℚ) (hb : 0 ≤ base) :
    base * (8/10) ≤ clampVal base np ∧ clampVal base np ≤ base * (12/10) := by
  simp only [clampVal, volatility]
  by_cases h1 : np < base * (8/10)
  · simp only [if_pos h1]
    by_cases h2 : base * (8/10) + base * (5/1000) > base * (12/10)
    · simp only [if_pos h2]
      constructor <;> linarith
    · simp only [if_neg h2]
      constructor <;> linarith
  · simp only [if_neg h1]
    push_neg at h1
    by_cases h2 : np > base * (12/10)
    · simp only [if_pos h2]
      constructor <;> linarith
    · simp only [if_neg h2]
      push_neg at h2
      exact ⟨h1, h2⟩

/-- Evaluation lemma for `toFixedPos` once the rounded integer is known. -/
lemma toFixedPos_eval (f : Nat) (x : ℚ) (m : ℤ)
    (hm : Int.floor (x * (10 : ℚ) ^ f + 1/2) = m) :
    toFixedPos f x =
      if f = 0 then toString m.toNat
      else toString (m.toNat / 10 ^ f) ++ "." ++ padZeros (toString (m.toNat % 10 ^ f)) f := by
  simp only [toFixedPos, hm]

/-- One normal-class advance rewrites the window as drop-one-append-one. -/
lemma advanceNormal_window_shape (base : ℚ) (w : List ℚ) (r : ℚ) :
    (advanceNormal base w r).1 = w.drop 1 ++ [advanceNormalVal base w r] := rfl

/-- One GAFR advance rewrites the window as drop-one-append-one. -/
lemma advanceGafr_window_shape (w : List ℚ) (r1 r2 : ℚ) :
    (advanceGafr w r1 r2).1 = w.drop 1 ++ [gafrVal r1 r2] := rfl

/-- A normal-class advance preserves a window of capacity `maxPoints`. -/
lemma advanceNormal_length (base : ℚ) (w : List ℚ) (r : ℚ) (h : w.length = maxPoints) :
    (advanceNormal base w r).1.length = maxPoints := by
  simp only [advanceNormal, List.length_append, List.length_drop, h, List.length_cons,
    List.length_nil, maxPoints]

/-- A GAFR advance preserves a window of capacity `maxPoints`. -/
lemma advanceGafr_length (w : List ℚ) (r1 r2 : ℚ) (h : w.length = maxPoints) :
    (advanceGafr w r1 r2).1.length = maxPoints := by
  simp only [advanceGafr, List.length_append, List.length_drop, h, List.length_cons,
    List.length_nil, maxPoints]

/-! ### The claims -/

/-- C1: for a normal-class instrument with `basePrice ≥ 0`, every sample
produced by `advance` lies within `[0.8 * basePrice, 1.2 * basePrice]`
inclusive — for every prior window state (in particular every reachable one)
and every value of the random draw. -/
theorem advanceNormal_within_band (base : ℚ) (w : List ℚ) (r : ℚ) (hb : 0 ≤ base) :
    base * (8/10) ≤ advanceNormalVal base w r ∧
      advanceNormalVal base w r ≤ base * (12/10) := by
  unfold advanceNormalVal
  exact clampVal_mem_band base (lastOr base w + change base r) hb

/-- Witness for C1 at `base = 100`, window `[100]`, draw `0`. -/
theorem advanceNormal_within_band_witness :
    (0 : ℚ) ≤ 100 ∧
      ((100 : ℚ) * (8/10) ≤ advanceNormalVal 100 [100] 0 ∧
        advanceNormalVal 100 [100] 0 ≤ 100 * (12/10)) :=
  ⟨by norm_num, advanceNormal_within_band 100 [100] 0 (by norm_num)⟩

/-- C10: in the normal-class advance, a most recent sample equal to `0` is
falsy, so the walk restarts from `basePrice`: the new value is the clamped
`basePrice + change`, not the clamped `0 + change`. -/
theorem advanceNormal_zero_last_uses_base (base : ℚ) (w : List ℚ) (r : ℚ)
    (h : w.getLast? = some 0) :
    advanceNormalVal base w r = clampVal base (base + change base r) := by
  unfold advanceNormalVal lastOr
  rw [h]
  simp

/-- Witness for C10 at `base = 7`, window `[0]`, draw `0`. -/
theorem advanceNormal_zero_last_uses_base_witness :
    ([(0 : ℚ)]).getLast? = some 0 ∧
      advanceNormalVal 7 [0] 0 = clampVal 7 (7 + change 7 0) :=
  ⟨rfl, advanceNormal_zero_last_uses_base 7 [0] 0 rfl⟩

/-- C4: the window length equals `maxPoints` right after `initialize` for
either instrument class, stays `maxPoints` after every single `advance`
(which appends exactly one sample and evicts exactly the oldest), and stays
`maxPoints` along every sequence of ticks of either class. -/
theorem window_length_invariant :
    initializeGafr.length = maxPoints ∧
    (∀ (base : ℚ) (rs : List ℚ), rs.length = maxPoints →
      (initializeNormal base rs).length = maxPoints) ∧
    (∀ (base : ℚ) (w : List ℚ) (r : ℚ), w.length = maxPoints →
      (advanceNormal base w r).1.length = maxPoints ∧
        (advanceNormal base w r).1 = w.drop 1 ++ [advanceNormalVal base w r]) ∧
    (∀ (w : List ℚ) (r1 r2 : ℚ), w.length = maxPoints →
      (advanceGafr w r1 r2).1.length = maxPoints ∧
        (advanceGafr w r1 r2).1 = w.drop 1 ++ [gafrVal r1 r2]) ∧
    (∀ (base : ℚ) (w : List ℚ) (rs : List ℚ), w.length = maxPoints →
      (rs.foldl (fun w' r => (advanceNormal base w' r).1) w).length = maxPoints) ∧
    (∀ (w : List ℚ) (rs : List (ℚ × ℚ)), w.length = maxPoints →
      (rs.foldl (fun w' p => (advanceGafr w' p.1 p.2).1) w).length = maxPoints) := by
  refine ⟨?_, ?_, ?_, ?_, ?_, ?_⟩
  · simp [initializeGafr]
  · intro base rs h
    simp [initializeNormal, h]
  · intro base w r h
    exact ⟨advanceNormal_length base w r h, advanceNormal_window_shape base w r⟩
  · intro w r1 r2 h
    exact ⟨advanceGafr_length w r1 r2 h, advanceGafr_window_shape w r1 r2⟩
  · intro base w rs h
    induction rs generalizing w with
    | nil => exact h
    | cons r rs ih => exact ih _ (advanceNormal_length base w r h)
  · intro w rs h
    induction rs generalizing w with
    | nil => exact h
    | cons p rs ih => exact ih _ (advanceGafr_length w p.1 p.2 h)

/-- Witness for C4: the GAFR seed window has length 80 and one tick of each
kind preserves it. -/
theorem window_length_invariant_witness :
    initializeGafr.length = maxPoints ∧
      (advanceNormal 1 initializeGafr 0).1.length = maxPoints ∧
      (advanceGafr initializeGafr 1 0).1.length = maxPoints :=
  ⟨window_length_invariant.1,
   (window_length_invariant.2.2.1 1 initializeGafr 0 (by simp [initializeGafr])).1,
   (window_length_invariant.2.2.2.1 initializeGafr 1 0 (by simp [initializeGafr])).1⟩

/-- C5: `normalize` is division-safe for every finite `basePrice ≥ 0` and
every (non-empty) window: the divisor `rangeOf` is never zero (so no NaN or
Infinity arises), a zero spread is replaced by `basePrice * 0.0001` when
`basePrice > 0` and by `1` otherwise, and when `max = min` every point's
normalized value is exactly `1/2`. -/
theorem normalize_safe (base : ℚ) (w : List ℚ) (hb : 0 ≤ base) (hw : w ≠ []) :
    rangeOf base w ≠ 0 ∧
    (mathMax w - mathMin w = 0 →
      rangeOf base w = if base > 0 then base * (1/10000) else 1) ∧
    (mathMax w = mathMin w → ∀ d ∈ w, effectiveY base w d = 1/2) := by
  refine ⟨?_, ?_, ?_⟩
  · unfold rangeOf
    by_cases hd : mathMax w - mathMin w = 0
    · simp only [if_pos hd]
      by_cases hp : base > 0
      · simp only [if_pos hp]
        positivity
      · simp only [if_neg hp]
        norm_num
    · simp only [if_neg hd]
      exact hd
  · intro hd
    unfold rangeOf
    simp only [if_pos hd]
  · intro hmm d _
    unfold effectiveY
    simp only [if_pos hmm]

/-- Witness for C5 at `base = 0` and the flat window `[5, 5]`. -/
theorem normalize_safe_witness :
    (0 : ℚ) ≤ 0 ∧ ([(5 : ℚ), 5] ≠ []) ∧ rangeOf 0 [5, 5] ≠ 0 ∧
      (mathMax [(5 : ℚ), 5] = mathMin [5, 5] →
        ∀ d ∈ [(5 : ℚ), 5], effectiveY 0 [5, 5] d = 1/2) :=
  ⟨le_refl 0, by simp, (normalize_safe 0 [5, 5] (le_refl 0) (by simp)).1,
   (normalize_safe 0 [5, 5] (le_refl 0) (by simp)).2.2⟩

/-- C8: the GAFR (flatline) advance appends `0` exactly when the flicker
draw is at most `0.95`, appends exactly `+0.01` or `-0.01` otherwise (the
sign being `+` exactly when the sign draw exceeds `0.5`), and forces the
displayed current price to `0` on every tick regardless of the sample. -/
theorem gafr_advance_spec (w : List ℚ) (r1 r2 : ℚ) :
    (advanceGafr w r1 r2).2 = 0 ∧
    (advanceGafr w r1 r2).1 = w.drop 1 ++ [gafrVal r1 r2] ∧
    (gafrVal r1 r2 = 0 ↔ r1 ≤ 19/20) ∧
    (19/20 < r1 → gafrVal r1 r2 = 1/100 ∨ gafrVal r1 r2 = -(1/100)) ∧
    (19/20 < r1 → (gafrVal r1 r2 = 1/100 ↔ 1/2 < r2)) := by
  refine ⟨rfl, rfl, ?_, ?_, ?_⟩
  · unfold gafrVal
    by_cases h : r1 > 19/20
    · rw [if_pos h]
      constructor
      · intro he
        by_cases h2 : r2 > 1/2
        · rw [if_pos h2] at he
          norm_num at he
        · rw [if_neg h2] at he
          norm_num at he
      · intro hle
        exact absurd h (not_lt.mpr hle)
    · rw [if_neg h]
      exact iff_of_true rfl (not_lt.mp h)
  · intro h
    unfold gafrVal
    rw [if_pos h]
    by_cases h2 : r2 > 1/2
    · exact Or.inl (by rw [if_pos h2])
    · exact Or.inr (by rw [if_neg h2])
  · intro h
    unfold gafrVal
    rw [if_pos h]
    by_cases h2 : r2 > 1/2
    · rw [if_pos h2]
      exact iff_of_true rfl h2
    · rw [if_neg h2]
      exact iff_of_false (by norm_num) h2

/-- Witness for C8 at window `[0]`, flicker draw `1`, sign draw `0`. -/
theorem gafr_advance_spec_witness :
    (advanceGafr [0] 1 0).2 = 0 ∧
      (gafrVal 1 0 = 0 ↔ (1 : ℚ) ≤ 19/20) ∧
      (gafrVal 1 0 = 1/100 ∨ gafrVal 1 0 = -(1/100)) :=
  ⟨(gafr_advance_spec [0] 1 0).1, (gafr_advance_spec [0] 1 0).2.2.1,
   (gafr_advance_spec [0] 1 0).2.2.2.1 (by norm_num)⟩

/-- C9: for every non-empty data window, the sparkline chart's vertical-axis
bounds are the window minimum times `0.99` and the window maximum times
`1.01` in compact mode, and minimum times `0.999` / maximum times `1.001` in
detailed mode. -/
theorem sparkBounds_spec (prices : List ℚ) (h : prices ≠ []) :
    ∃ m M : ℚ, m ∈ prices ∧ M ∈ prices ∧
      (∀ y ∈ prices, m ≤ y) ∧ (∀ y ∈ prices, y ≤ M) ∧
      sparkBounds false prices = (m * (99/100), M * (101/100)) ∧
      sparkBounds true prices = (m * (999/1000), M * (1001/1000)) :=
  ⟨mathMin prices, mathMax prices, mathMin_mem _ h, mathMax_mem _ h,
    fun y hy => mathMin_le_mem _ _ hy, fun y hy => mem_le_mathMax _ _ hy, rfl, rfl⟩

/-- Witness for C9 at the window `[1, 2]`. -/
theorem sparkBounds_spec_witness :
    ([(1 : ℚ), 2] ≠ []) ∧
      ∃ m M : ℚ, m ∈ [(1 : ℚ), 2] ∧ M ∈ [(1 : ℚ), 2] ∧
        (∀ y ∈ [(1 : ℚ), 2], m ≤ y) ∧ (∀ y ∈ [(1 : ℚ), 2], y ≤ M) ∧
        sparkBounds false [1, 2] = (m * (99/100), M * (101/100)) ∧
        sparkBounds true [1, 2] = (m * (999/1000), M * (1001/1000)) :=
  ⟨by simp, sparkBounds_spec [1, 2] (by simp)⟩

/-- C6: `percentChange` is `(current - first) / first * 100` formatted to two
decimals whenever the window is non-empty and its first sample is nonzero,
and is exactly `"0.00"` when the window is empty or its first sample is `0`;
in particular `current = 150` over the window `[100, 150]` yields `"50.00"`. -/
theorem percentChange_spec :
    (∀ price : ℚ, percentChange [] price = "0.00") ∧
    (∀ (f : ℚ) (t : List ℚ) (price : ℚ), f = 0 →
      percentChange (f :: t) price = "0.00") ∧
    (∀ (f : ℚ) (t : List ℚ) (price : ℚ), f ≠ 0 →
      percentChange (f :: t) price = toFixedQ 2 ((price - f) / f * 100)) ∧
    percentChange [100, 150] 150 = "50.00" := by
  refine ⟨fun _ => rfl, ?_, ?_, ?_⟩
  · intro f t price hf
    simp [percentChange, hf]
  · intro f t price hf
    simp [percentChange, hf]
  · have e1 : ((150 : ℚ) - 100) / 100 * 100 = 50 := by norm_num
    have e2 : toFixedQ 2 (50 : ℚ) = "50.00" := by
      unfold toFixedQ
      rw [if_neg (by norm_num : ¬ (50 : ℚ) < 0), toFixedPos_eval 2 50 5000 (by norm_num)]
      decide
    show (if (100 : ℚ) = 0 then "0.00" else toFixedQ 2 ((150 - 100) / 100 * 100)) = "50.00"
    rw [if_neg (by norm_num : ¬ (100 : ℚ) = 0), e1, e2]

/-- Witness for C6: the symbolic branch applied at first sample `100`,
current price `150`. -/
theorem percentChange_spec_witness :
    (100 : ℚ) ≠ 0 ∧
      percentChange [100, 150] 150 = toFixedQ 2 (((150 : ℚ) - 100) / 100 * 100) :=
  ⟨by norm_num, percentChange_spec.2.2.1 100 [150] 150 (by norm_num)⟩

/-- C7: the displayed price is always `"0.00"` for the flatline (GAFR)
instrument; any other instrument formats with 8 decimal places when the
price is below 1 and with 2 decimal places otherwise, so `0.5` renders as
`"0.50000000"` and `1500` as `"1500.00"`. -/
theorem priceDisplay_spec :
    (∀ price : ℚ, priceDisplay true price = "0.00") ∧
    (∀ price : ℚ, price < 1 → priceDisplay false price = toFixedQ 8 price) ∧
    (∀ price : ℚ, ¬ price < 1 → priceDisplay false price = toFixedQ 2 price) ∧
    priceDisplay false (1/2) = "0.50000000" ∧
    priceDisplay false 1500 = "1500.00" := by
  refine ⟨fun _ => rfl, ?_, ?_, ?_, ?_⟩
  · intro price hp
    simp [priceDisplay, hp]
  · intro price hp
    simp [priceDisplay, hp]
  · show (if (1/2 : ℚ) < 1 then toFixedQ 8 (1/2) else toFixedQ 2 (1/2)) = "0.50000000"
    rw [if_pos (by norm_num : (1/2 : ℚ) < 1)]
    unfold toFixedQ
    rw [if_neg (by norm_num : ¬ (1/2 : ℚ) < 0),
      toFixedPos_eval 8 (1/2) 50000000 (by norm_num)]
    decide
  · show (if (1500 : ℚ) < 1 then toFixedQ 8 1500 else toFixedQ 2 1500) = "1500.00"
    rw [if_neg (by norm_num : ¬ (1500 : ℚ) < 1)]
    unfold toFixedQ
    rw [if_neg (by norm_num : ¬ (1500 : ℚ) < 0),
      toFixedPos_eval 2 1500 150000 (by norm_num)]
    decide

/-- Witness for C7: the sub-unit branch applied at price `1/2`. -/
theorem priceDisplay_spec_witness :
    (1/2 : ℚ) < 1 ∧ priceDisplay false (1/2) = toFixedQ 8 (1/2) :=
  ⟨by norm_num, priceDisplay_spec.2.1 (1/2) (by norm_num)⟩

/-- C2 counterexample: the claimed full amplitude is never reached. At
`basePrice = 1` the claimed interval endpoint `+0.005 * basePrice` is not
attained by any draw `r ∈ [0, 1)`: the code multiplies `volatility` by
`Math.random() - 0.5`, whose magnitude stays below `1/2`. -/
theorem change_claimed_band_not_attained :
    ¬ ∃ r : ℚ, 0 ≤ r ∧ r < 1 ∧ change 1 r = 1 * (5/1000) := by
  rintro ⟨r, h0, h1, he⟩
  unfold change volatility at he
  nlinarith [he, h1]

/-- C2 (amended): for a normal-class instrument with `basePrice > 0`, the
per-tick change lies in the half-open interval
`[-0.0025 * basePrice, +0.0025 * basePrice)` for every draw `r ∈ [0, 1)`,
and every value in that interval is attained by some draw. -/
theorem change_band_and_attain (base : ℚ) (hb : 0 < base) :
    (∀ r : ℚ, 0 ≤ r → r < 1 →
      -(base * (25/10000)) ≤ change base r ∧ change base r < base * (25/10000)) ∧
    (∀ c : ℚ, -(base * (25/10000)) ≤ c → c < base * (25/10000) →
      ∃ r : ℚ, 0 ≤ r ∧ r < 1 ∧ change base r = c) := by
  have hk : 0 < base * (5/1000) := by positivity
  constructor
  · intro r h0 h1
    unfold change volatility
    constructor
    · nlinarith [mul_nonneg hb.le h0]
    · nlinarith [mul_pos hb (sub_pos.mpr h1)]
  · intro c hc1 hc2
    refine ⟨c / (base * (5/1000)) + 1/2, ?_, ?_, ?_⟩
    · have h : -(1/2 : ℚ) ≤ c / (base * (5/1000)) := by
        rw [le_div_iff₀ hk]
        nlinarith
      linarith
    · have h : c / (base * (5/1000)) < 1/2 := by
        rw [div_lt_iff₀ hk]
        nlinarith
      linarith
    · unfold change volatility
      have h : c / (base * (5/1000)) + 1/2 - 1/2 = c / (base * (5/1000)) := by ring
      rw [h]
      exact div_mul_cancel₀ c (ne_of_gt hk)

/-- Witness for the amended C2 at `base = 1`, draw `1/4`. -/
theorem change_band_and_attain_witness :
    (0 : ℚ) < 1 ∧ (0 : ℚ) ≤ 1/4 ∧ (1/4 : ℚ) < 1 ∧
      (-(1 * (25/10000)) ≤ change 1 (1/4) ∧ change 1 (1/4) < 1 * (25/10000)) :=
  ⟨by norm_num, by norm_num, by norm_num,
   (change_band_and_attain 1 (by norm_num)).1 (1/4) (by norm_num) (by norm_num)⟩

/-- C3 counterexample: at `basePrice = 1` the value `1.015` lies in the
claimed 2% seed band (`|1.015 - 1| = 0.015 ≤ 0.02`) yet no draw
`r ∈ [0, 1)` seeds it: `(Math.random() - 0.5) * (base * 0.02)` has magnitude
below `0.01 * base`. -/
theorem seed_claimed_band_not_attained :
    ¬ ∃ r : ℚ, 0 ≤ r ∧ r < 1 ∧ seedSample 1 r = 1 + 15/1000 := by
  rintro ⟨r, h0, h1, he⟩
  unfold seedSample at he
  nlinarith [he, h1]

/-- C3 (amended): for a normal-class instrument with `basePrice > 0`, every
seeded sample lies in the half-open band
`[basePrice - 0.01 * basePrice, basePrice + 0.01 * basePrice)` for every
draw `r ∈ [0, 1)` (samples are independent per draw), and every value in
that band is attained by some draw. -/
theorem seed_band_and_attain (base : ℚ) (hb : 0 < base) :
    (∀ r : ℚ, 0 ≤ r → r < 1 →
      base - base * (1/100) ≤ seedSample base r ∧
        seedSample base r < base + base * (1/100)) ∧
    (∀ s : ℚ, base - base * (1/100) ≤ s → s < base + base * (1/100) →
      ∃ r : ℚ, 0 ≤ r ∧ r < 1 ∧ seedSample base r = s) := by
  have hk : 0 < base * (2/100) := by positivity
  constructor
  · intro r h0 h1
    unfold seedSample
    constructor
    · nlinarith [mul_nonneg hb.le h0]
    · nlinarith [mul_pos hb (sub_pos.mpr h1)]
  · intro s hs1 hs2
    refine ⟨(s - base) / (base * (2/100)) + 1/2, ?_, ?_, ?_⟩
    · have h : -(1/2 : ℚ) ≤ (s - base) / (base * (2/100)) := by
        rw [le_div_iff₀ hk]
        nlinarith
      linarith
    · have h : (s - base) / (base * (2/100)) < 1/2 := by
        rw [div_lt_iff₀ hk]
        nlinarith
      linarith
    · unfold seedSample
      have h : (s - base) / (base * (2/100)) + 1/2 - 1/2 = (s - base) / (base * (2/100)) := by
        ring
      rw [h, div_mul_cancel₀ (s - base) (ne_of_gt hk)]
      ring

/-- Witness for the amended C3 at `base = 1`, draw `3/4`. -/
theorem seed_band_and_attain_witness :
    (0 : ℚ) < 1 ∧ (0 : ℚ) ≤ 3/4 ∧ (3/4 : ℚ) < 1 ∧
      (1 - 1 * (1/100) ≤ seedSample 1 (3/4) ∧ seedSample 1 (3/4) < 1 + 1 * (1/100)) :=
  ⟨by norm_num, by norm_num, by norm_num,
   (seed_band_and_attain 1 (by norm_num)).1 (3/4) (by norm_num) (by norm_num)⟩

end InstaitexChart
